import Mathlib

/-!
Verification of the `desafio_meli` ETL pipeline (files `desafio_meli.py`,
`utils.py`) against its natural-language specification.

The Python source is shallowly embedded: pure helpers become Lean
functions; the HTTP layer is modelled by an explicit response oracle
passed as an argument; Python exceptions (`KeyError`, `raise Exception`)
become `Except String`; Python `None` becomes `Option.none`; `logging`
calls become an explicit list of emitted log lines.
-/

namespace DesafioMeli

/-! ## Python string splitting and joining on `","`

`chunk_ids` does `ids_str.split(',')` and the id getters do
`",".join(...)`.  Python's `str.split` with an explicit separator never
returns an empty list: `"".split(",") == [""]`.  We model both at the
character-list level, exactly mirroring that semantics. -/

/-- Python `s.split(',')` on a character list: splits at every `','`,
keeping empty fields; always returns at least one (possibly empty)
field, so `splitOnComma [] = [[]]` just as `"".split(",") == [""]`. -/
def splitOnComma : List Char → List (List Char)
  | [] => [[]]
  | c :: rest =>
    if c = ',' then [] :: splitOnComma rest
    else
      match splitOnComma rest with
      | [] => [[c]]
      | t :: ts => (c :: t) :: ts

/-- Python `",".join(parts)` on character lists. -/
def joinComma : List (List Char) → List Char
  | [] => []
  | [p] => p
  | p :: ps => p ++ ',' :: joinComma ps

/-- Python `ids_str.split(',')` at the `String` level. -/
def pySplit (s : String) : List String :=
  (splitOnComma s.data).map List.asString

/-- Python `",".join(parts)` at the `String` level. -/
def pyJoinComma (parts : List String) : String :=
  List.asString (joinComma (parts.map String.data))

theorem splitOnComma_ne_nil (l : List Char) : splitOnComma l ≠ [] := by
  induction l with
  | nil => simp [splitOnComma]
  | cons c rest ih =>
    simp only [splitOnComma]
    split
    · simp
    · match h : splitOnComma rest with
      | [] => simp
      | t :: ts => simp

theorem pySplit_ne_nil (s : String) : pySplit s ≠ [] := by
  simp [pySplit, splitOnComma_ne_nil]

theorem splitOnComma_of_no_comma (p : List Char) (hp : ¬ ',' ∈ p) :
    splitOnComma p = [p] := by
  induction p with
  | nil => rfl
  | cons c rest ih =>
    simp only [List.mem_cons, not_or] at hp
    have h1 : ¬ c = ',' := fun h => hp.1 h.symm
    rw [splitOnComma, if_neg h1, ih hp.2]

theorem splitOnComma_append_comma (p r : List Char) (hp : ¬ ',' ∈ p) :
    splitOnComma (p ++ ',' :: r) = p :: splitOnComma r := by
  induction p with
  | nil => simp [splitOnComma]
  | cons c rest ih =>
    simp only [List.mem_cons, not_or] at hp
    have h1 : ¬ c = ',' := fun h => hp.1 h.symm
    rw [List.cons_append, splitOnComma, if_neg h1, ih hp.2]

/-- Round trip: splitting a comma-join recovers the original parts, as
long as there is at least one part and no part contains a comma. -/
theorem splitOnComma_joinComma (parts : List (List Char))
    (hne : parts ≠ []) (hfree : ∀ p ∈ parts, ¬ ',' ∈ p) :
    splitOnComma (joinComma parts) = parts := by
  induction parts with
  | nil => exact absurd rfl hne
  | cons p ps ih =>
    cases ps with
    | nil =>
      simp only [joinComma]
      exact splitOnComma_of_no_comma p (hfree p (by simp))
    | cons q qs =>
      have hne2 : q :: qs ≠ [] := List.cons_ne_nil q qs
      have hrec := ih hne2 (fun x hx => hfree x (List.mem_cons_of_mem p hx))
      rw [joinComma, splitOnComma_append_comma p _ (hfree p (by simp)), hrec]
      exact fun h => List.noConfusion h

theorem asString_data (s : String) : List.asString s.data = s := by
  cases s; rfl

theorem pySplit_pyJoinComma (parts : List String)
    (hne : parts ≠ []) (hfree : ∀ p ∈ parts, ¬ ',' ∈ p.data) :
    pySplit (pyJoinComma parts) = parts := by
  unfold pySplit pyJoinComma
  rw [show (List.asString (joinComma (parts.map String.data))).data
        = joinComma (parts.map String.data) from rfl,
    splitOnComma_joinComma (parts.map String.data)
      (by simpa using hne)
      (by intro p hp
          rcases List.mem_map.mp hp with ⟨q, hq, rfl⟩
          exact hfree q hq)]
  rw [List.map_map]
  nth_rewrite 2 [show parts = parts.map id from (List.map_id parts).symm]
  exact List.map_congr_left fun s _ => asString_data s

/-! ## Batching: `Item.chunk_ids`

```python
def chunk_ids(self, ids_str, chunk_size=20):
    ids_list = ids_str.split(',')
    for i in range(0, len(ids_list), chunk_size):
        yield ids_list[i:i + chunk_size]
```

modelled as the list of slices `ids_list[i:i+k]` for `i = 0, k, 2k, …`.
(Python raises `ValueError` on step 0; `chunkList` is meaningful for
`k ≥ 1`, the only way the source ever calls it.) -/

/-- The slicing loop of `chunk_ids`: successive slices of length `k`
(the last possibly shorter) of a list.  For `k ≥ 1`,
`chunkList k l = [l[0:k], l[k:2k], …]`. -/
def chunkList (k : Nat) : List α → List (List α)
  | [] => []
  | a :: l => (a :: List.take (k - 1) l) :: chunkList k (List.drop (k - 1) l)
termination_by l => l.length
decreasing_by
  simp only [List.length_drop, List.length_cons]
  omega

/-- `Item.chunk_ids`: split the comma-separated id string, then batch. -/
def chunk_ids (ids_str : String) (chunk_size : Nat) : List (List String) :=
  chunkList chunk_size (pySplit ids_str)

theorem chunkList_nil (k : Nat) : chunkList k ([] : List α) = [] := by
  rw [chunkList]

theorem chunkList_cons (k : Nat) (a : α) (l : List α) :
    chunkList k (a :: l)
      = (a :: List.take (k - 1) l) :: chunkList k (List.drop (k - 1) l) := by
  rw [chunkList]

theorem chunkList_eq_nil_iff (k : Nat) (l : List α) :
    chunkList k l = [] ↔ l = [] := by
  cases l with
  | nil => simp [chunkList_nil]
  | cons a l => simp [chunkList_cons]

/-- Concatenating the chunks restores the input list. -/
theorem join_chunkList (k : Nat) (l : List α) :
    (chunkList k l).flatten = l := by
  suffices H : ∀ (n : Nat) (l : List α), l.length = n
      → (chunkList k l).flatten = l from H l.length l rfl
  intro n
  induction n using Nat.strong_induction_on with
  | _ n ih =>
    intro l hn
    cases l with
    | nil => simp [chunkList_nil]
    | cons a l =>
      simp only [List.length_cons] at hn
      rw [chunkList_cons, List.flatten_cons,
        ih (List.drop (k - 1) l).length
          (by simp only [List.length_drop]; omega) _ rfl]
      simp [List.take_append_drop]

/-- The number of chunks is `⌈|l| / k⌉` (as `(|l| + k - 1) / k`). -/
theorem length_chunkList (k : Nat) (hk : 0 < k) (l : List α) :
    (chunkList k l).length = (l.length + k - 1) / k := by
  suffices H : ∀ (n : Nat) (l : List α), l.length = n
      → (chunkList k l).length = (l.length + k - 1) / k from H l.length l rfl
  intro n
  induction n using Nat.strong_induction_on with
  | _ n ih =>
    intro l hn
    cases l with
    | nil =>
      rw [chunkList_nil]
      simp only [List.length_nil]
      rw [Nat.div_eq_of_lt (by omega)]
    | cons a l =>
      simp only [List.length_cons] at hn
      rw [chunkList_cons, List.length_cons,
        ih (List.drop (k - 1) l).length
          (by simp only [List.length_drop]; omega) _ rfl]
      simp only [List.length_drop, List.length_cons]
      rcases Nat.lt_or_ge l.length (k - 1) with h | h
      · have h1 : l.length - (k - 1) = 0 := by omega
        have h2 : (l.length + 1 + k - 1) / k = 1 := by
          apply Nat.div_eq_of_lt_le <;> omega
        rw [h1, h2]
        have : (0 + k - 1) / k = 0 := Nat.div_eq_of_lt (by omega)
        omega
      · have h1 : l.length - (k - 1) + k - 1 + k = l.length + 1 + k - 1 := by
          omega
        rw [← h1, Nat.add_div_right _ hk]

/-- Every chunk except possibly the last has length exactly `k`. -/
theorem length_of_mem_dropLast_chunkList (k : Nat) (hk : 0 < k) (l : List α)
    (c : List α) (hc : c ∈ (chunkList k l).dropLast) : c.length = k := by
  suffices H : ∀ (n : Nat) (l : List α), l.length = n
      → ∀ c ∈ (chunkList k l).dropLast, c.length = k from H l.length l rfl c hc
  intro n
  induction n using Nat.strong_induction_on with
  | _ n ih =>
    intro l hn c hc
    cases l with
    | nil => simp [chunkList_nil] at hc
    | cons a l =>
      simp only [List.length_cons] at hn
      rw [chunkList_cons] at hc
      by_cases hrest : List.drop (k - 1) l = []
      · rw [hrest, chunkList_nil] at hc
        simp at hc
      · have hrest2 : chunkList k (List.drop (k - 1) l) ≠ [] := by
          simp only [ne_eq, chunkList_eq_nil_iff]; exact hrest
        rw [List.dropLast_cons_of_ne_nil hrest2] at hc
        rcases List.mem_cons.mp hc with rfl | hc2
        · have hlen : k - 1 ≤ l.length := by
            by_contra hcon
            exact hrest (List.drop_eq_nil_of_le (by omega))
          simp only [List.length_cons, List.length_take]
          omega
        · exact ih (List.drop (k - 1) l).length
            (by simp only [List.length_drop]; omega) _ rfl c hc2

/-- Claim C1: for every identifier string (encoding the identifier
sequence `S = pySplit s`) and every chunk size `k > 0`, `chunk_ids`
produces chunks whose concatenation reproduces `S` exactly in original
order, every chunk except possibly the last has length exactly `k`, and
the number of chunks equals `⌈|S| / k⌉`. -/
theorem chunk_ids_partition (s : String) (k : Nat) (hk : 0 < k) :
    (chunk_ids s k).flatten = pySplit s
    ∧ (∀ c ∈ (chunk_ids s k).dropLast, c.length = k)
    ∧ (chunk_ids s k).length = ((pySplit s).length + k - 1) / k :=
  ⟨join_chunkList k (pySplit s),
   fun c hc => length_of_mem_dropLast_chunkList k hk (pySplit s) c hc,
   length_chunkList k hk (pySplit s)⟩

theorem chunk_ids_partition_witness :
    0 < 2
    ∧ ((chunk_ids "a,b,c" 2).flatten = pySplit "a,b,c"
      ∧ (∀ c ∈ (chunk_ids "a,b,c" 2).dropLast, c.length = 2)
      ∧ (chunk_ids "a,b,c" 2).length = ((pySplit "a,b,c").length + 2 - 1) / 2) :=
  ⟨by decide, chunk_ids_partition "a,b,c" 2 (by decide)⟩

/-- Claim C4, counterexample: on the empty string the helper does NOT
yield zero chunks — `"".split(",") == [""]` in Python, so it yields the
single chunk `[""]`. -/
theorem chunk_ids_empty_counterexample :
    chunk_ids "" 20 = [[""]] ∧ ¬ (chunk_ids "" 20).length = 0 := by
  have hs : pySplit "" = [""] := rfl
  have h : chunk_ids "" 20 = [[""]] := by
    show chunkList 20 (pySplit "") = [[""]]
    rw [hs, chunkList_cons]
    simp [chunkList_nil]
  exact ⟨h, by rw [h]; simp⟩

/-- Claim C4 (amended): the batching helper is total (no error
conditions) for every positive chunk size, but applying it to the empty
string yields exactly one chunk, containing a single empty identifier,
because splitting the empty string on commas yields `[""]`. -/
theorem chunk_ids_empty_amended (k : Nat) (_hk : 0 < k) :
    chunk_ids "" k = [[""]] := by
  have hs : pySplit "" = [""] := rfl
  show chunkList k (pySplit "") = [[""]]
  rw [hs, chunkList_cons]
  simp [chunkList_nil]

theorem chunk_ids_empty_amended_witness :
    0 < 20 ∧ chunk_ids "" 20 = [[""]] :=
  ⟨by decide, chunk_ids_empty_amended 20 (by decide)⟩

/-! ## Wire data model (`utils.py`)

A wire element of the bulk `/items` endpoint is a dict with a `body`
dict.  Python dict lookups `d["k"]` raise `KeyError` on absent keys, so
body fields are `Option`s and a lookup is `getKey`, returning in
`Except String`.  `sale_terms` entries are read only at keys `id` and
`value_name` (always present on the wire), so they are a plain pair. -/

/-- One entry of an item's `sale_terms` list. -/
structure SaleTerm where
  id : String
  value_name : String
deriving DecidableEq, Repr

/-- The nested `shipping` dict of an item body. -/
structure ShippingInfo where
  free_shipping : Option Bool
  local_pick_up : Option Bool
  logistic_type : Option String
  mode : Option String
deriving DecidableEq, Repr

/-- The `body` dict of one element of a bulk `/items` response. -/
structure ItemBody where
  category_id : Option String
  price : Option Int
  seller_id : Option Int
  title : Option String
  currency_id : Option String
  shipping : Option ShippingInfo
  sale_terms : Option (List SaleTerm)
deriving DecidableEq, Repr

/-- One element of a bulk `/items` response (`{"body": …}`). -/
structure WireItem where
  body : ItemBody
deriving DecidableEq, Repr

/-- The flattened `item_data` record built by `get_items_data`.  The
nine looked-up fields are always set; the warranty fields are set only
when a matching `sale_terms` entry exists. -/
structure ItemRecord where
  category_id : String
  price : Int
  seller_id : Int
  title : String
  currency_id : String
  free_shipping : Bool
  local_pick_up : Bool
  logistic_type : String
  shipping_mode : String
  warranty_time : Option String
  warranty_type : Option String
deriving DecidableEq, Repr

/-- Python `d["k"]`: yields the value, or raises `KeyError` when the
key is absent. -/
def getKey (v : Option α) (k : String) : Except String α :=
  match v with
  | some x => .ok x
  | none => .error ("KeyError: " ++ k)

/-- One iteration of the `utils.get_warranties_date` loop: the two
independent `if` statements run on one `sale_terms` entry. -/
def warrantyStep (item : ItemRecord) (w : SaleTerm) : ItemRecord :=
  let item1 := if w.id = "WARRANTY_TYPE"
    then { item with warranty_type := some w.value_name } else item
  if w.id = "WARRANTY_TIME"
    then { item1 with warranty_time := some w.value_name } else item1

/-- `utils.get_warranties_date`: walk `sale_terms`, writing
`value_name` into `warranty_type` / `warranty_time` at every entry
whose `id` matches; a later match overwrites an earlier one. -/
def get_warranties_date (item : ItemRecord) : List SaleTerm → ItemRecord
  | [] => item
  | w :: ws => get_warranties_date (warrantyStep item w) ws

/-- The loop body of `utils.get_items_data`: the nine `KeyError`-able
lookups on one wire element's body, then the warranty scan. -/
def flattenItem (w : WireItem) : Except String ItemRecord :=
  match w.body.category_id with
  | none => .error "KeyError: category_id"
  | some category_id =>
  match w.body.price with
  | none => .error "KeyError: price"
  | some price =>
  match w.body.seller_id with
  | none => .error "KeyError: seller_id"
  | some seller_id =>
  match w.body.title with
  | none => .error "KeyError: title"
  | some title =>
  match w.body.currency_id with
  | none => .error "KeyError: currency_id"
  | some currency_id =>
  match w.body.shipping with
  | none => .error "KeyError: shipping"
  | some shipping =>
  match shipping.free_shipping with
  | none => .error "KeyError: free_shipping"
  | some free_shipping =>
  match shipping.local_pick_up with
  | none => .error "KeyError: local_pick_up"
  | some local_pick_up =>
  match shipping.logistic_type with
  | none => .error "KeyError: logistic_type"
  | some logistic_type =>
  match shipping.mode with
  | none => .error "KeyError: mode"
  | some shipping_mode =>
  match w.body.sale_terms with
  | none => .error "KeyError: sale_terms"
  | some sale_terms =>
    .ok (get_warranties_date
      { category_id := category_id, price := price, seller_id := seller_id,
        title := title, currency_id := currency_id,
        free_shipping := free_shipping, local_pick_up := local_pick_up,
        logistic_type := logistic_type, shipping_mode := shipping_mode,
        warranty_time := none, warranty_type := none } sale_terms)

/-- `utils.get_items_data`: flatten every wire element in order; a
`KeyError` on any element aborts the whole call. -/
def get_items_data : List WireItem → Except String (List ItemRecord)
  | [] => .ok []
  | w :: ws =>
    match flattenItem w with
    | .error e => .error e
    | .ok r =>
      match get_items_data ws with
      | .error e => .error e
      | .ok rs => .ok (r :: rs)

/-- The nested reputation dicts of a bulk `/users` response body. -/
structure TransactionsInfo where
  total : Option Int
deriving DecidableEq, Repr

structure SellerReputation where
  transactions : Option TransactionsInfo
deriving DecidableEq, Repr

/-- The `body` dict of one element of a bulk `/users` response. -/
structure SellerBody where
  id : Option Int
  seller_reputation : Option SellerReputation
deriving DecidableEq, Repr

/-- One element of a bulk `/users` response (`{"body": …}`). -/
structure WireSeller where
  body : SellerBody
deriving DecidableEq, Repr

/-- The flattened `seller_data` record built by `get_sellers_data`. -/
structure SellerRecord where
  id : Int
  qty_sales : Int
deriving DecidableEq, Repr

/-- The loop body of `utils.get_sellers_data`. -/
def flattenSeller (w : WireSeller) : Except String SellerRecord :=
  match w.body.id with
  | none => .error "KeyError: id"
  | some i =>
  match w.body.seller_reputation with
  | none => .error "KeyError: seller_reputation"
  | some rep =>
  match rep.transactions with
  | none => .error "KeyError: transactions"
  | some tr =>
  match tr.total with
  | none => .error "KeyError: total"
  | some total => .ok { id := i, qty_sales := total }

/-- `utils.get_sellers_data`: flatten every wire element in order; a
`KeyError` on any element aborts the whole call. -/
def get_sellers_data : List WireSeller → Except String (List SellerRecord)
  | [] => .ok []
  | w :: ws =>
    match flattenSeller w with
    | .error e => .error e
    | .ok r =>
      match get_sellers_data ws with
      | .error e => .error e
      | .ok rs => .ok (r :: rs)

/-! ## Claim C2: which `sale_terms` entry wins -/

theorem warrantyStep_type (item : ItemRecord) (w : SaleTerm) :
    (warrantyStep item w).warranty_type
      = if w.id = "WARRANTY_TYPE" then some w.value_name
        else item.warranty_type := by
  unfold warrantyStep
  by_cases h : w.id = "WARRANTY_TYPE" <;>
    by_cases h2 : w.id = "WARRANTY_TIME" <;> simp [h, h2]

theorem warrantyStep_time (item : ItemRecord) (w : SaleTerm) :
    (warrantyStep item w).warranty_time
      = if w.id = "WARRANTY_TIME" then some w.value_name
        else item.warranty_time := by
  unfold warrantyStep
  by_cases h : w.id = "WARRANTY_TYPE" <;>
    by_cases h2 : w.id = "WARRANTY_TIME" <;> simp [h, h2]

theorem get_warranties_date_append (item : ItemRecord)
    (xs ys : List SaleTerm) :
    get_warranties_date item (xs ++ ys)
      = get_warranties_date (get_warranties_date item xs) ys := by
  induction xs generalizing item with
  | nil => rfl
  | cons w ws ih =>
    simp only [List.cons_append, get_warranties_date]
    exact ih _

theorem warranty_type_get_warranties_date (item : ItemRecord)
    (ws : List SaleTerm) :
    (get_warranties_date item ws).warranty_type
      = match ws.reverse.find? (fun w => w.id == "WARRANTY_TYPE") with
        | some w => some w.value_name
        | none => item.warranty_type := by
  induction ws using List.reverseRecOn with
  | nil => rfl
  | append_singleton xs w ih =>
    rw [get_warranties_date_append,
      show (xs ++ [w]).reverse = w :: xs.reverse by simp,
      show get_warranties_date (get_warranties_date item xs) [w]
        = warrantyStep (get_warranties_date item xs) w from rfl,
      warrantyStep_type]
    by_cases h : w.id = "WARRANTY_TYPE"
    · rw [if_pos h]
      simp [List.find?_cons, h]
    · rw [if_neg h]
      have hb : (w.id == "WARRANTY_TYPE") = false := by simp [h]
      simp only [List.find?_cons, hb]
      exact ih

theorem warranty_time_get_warranties_date (item : ItemRecord)
    (ws : List SaleTerm) :
    (get_warranties_date item ws).warranty_time
      = match ws.reverse.find? (fun w => w.id == "WARRANTY_TIME") with
        | some w => some w.value_name
        | none => item.warranty_time := by
  induction ws using List.reverseRecOn with
  | nil => rfl
  | append_singleton xs w ih =>
    rw [get_warranties_date_append,
      show (xs ++ [w]).reverse = w :: xs.reverse by simp,
      show get_warranties_date (get_warranties_date item xs) [w]
        = warrantyStep (get_warranties_date item xs) w from rfl,
      warrantyStep_time]
    by_cases h : w.id = "WARRANTY_TIME"
    · rw [if_pos h]
      simp [List.find?_cons, h]
    · rw [if_neg h]
      have hb : (w.id == "WARRANTY_TIME") = false := by simp [h]
      simp only [List.find?_cons, hb]
      exact ih

/-- Claim C2, counterexample: with two `WARRANTY_TYPE` entries the
warranty scan keeps the `value_name` of the LAST one (`"B"`), not the
first (`"A"`) as the claim states. -/
theorem warranty_first_match_counterexample :
    (get_warranties_date
        { category_id := "c", price := 0, seller_id := 0, title := "t",
          currency_id := "u", free_shipping := true, local_pick_up := true,
          logistic_type := "l", shipping_mode := "m",
          warranty_time := none, warranty_type := none }
        [{ id := "WARRANTY_TYPE", value_name := "A" },
         { id := "WARRANTY_TYPE", value_name := "B" }]).warranty_type
      = some "B"
    ∧ ¬ (get_warranties_date
        { category_id := "c", price := 0, seller_id := 0, title := "t",
          currency_id := "u", free_shipping := true, local_pick_up := true,
          logistic_type := "l", shipping_mode := "m",
          warranty_time := none, warranty_type := none }
        [{ id := "WARRANTY_TYPE", value_name := "A" },
         { id := "WARRANTY_TYPE", value_name := "B" }]).warranty_type
      = some "A" := by
  constructor
  · rfl
  · intro h
    simp [get_warranties_date, warrantyStep] at h

/-- Claim C2 (amended): the scan assigns into the output record the
`value_name` of the LAST entry whose id is `"WARRANTY_TYPE"` (into
`warranty_type`) and of the LAST entry whose id is `"WARRANTY_TIME"`
(into `warranty_time`); when no such entry exists the corresponding
field is left unset, and this is not an error. -/
theorem get_warranties_last_match (item : ItemRecord) (ws : List SaleTerm)
    (htype : item.warranty_type = none) (htime : item.warranty_time = none) :
    (get_warranties_date item ws).warranty_type
        = (ws.reverse.find? (fun w => w.id == "WARRANTY_TYPE")).map
            (fun w => w.value_name)
    ∧ (get_warranties_date item ws).warranty_time
        = (ws.reverse.find? (fun w => w.id == "WARRANTY_TIME")).map
            (fun w => w.value_name) := by
  constructor
  · rw [warranty_type_get_warranties_date]
    cases h : ws.reverse.find? (fun w => w.id == "WARRANTY_TYPE") <;>
      simp [htype]
  · rw [warranty_time_get_warranties_date]
    cases h : ws.reverse.find? (fun w => w.id == "WARRANTY_TIME") <;>
      simp [htime]

theorem get_warranties_last_match_witness :
    (get_warranties_date
        { category_id := "c", price := 0, seller_id := 0, title := "t",
          currency_id := "u", free_shipping := true, local_pick_up := true,
          logistic_type := "l", shipping_mode := "m",
          warranty_time := none, warranty_type := none }
        [{ id := "WARRANTY_TIME", value_name := "90 days" },
         { id := "WARRANTY_TYPE", value_name := "Manufacturer" }]).warranty_type
        = ([({ id := "WARRANTY_TIME", value_name := "90 days" } : SaleTerm),
            { id := "WARRANTY_TYPE", value_name := "Manufacturer" }].reverse.find?
              (fun w => w.id == "WARRANTY_TYPE")).map (fun w => w.value_name)
    ∧ (get_warranties_date
        { category_id := "c", price := 0, seller_id := 0, title := "t",
          currency_id := "u", free_shipping := true, local_pick_up := true,
          logistic_type := "l", shipping_mode := "m",
          warranty_time := none, warranty_type := none }
        [{ id := "WARRANTY_TIME", value_name := "90 days" },
         { id := "WARRANTY_TYPE", value_name := "Manufacturer" }]).warranty_time
        = ([({ id := "WARRANTY_TIME", value_name := "90 days" } : SaleTerm),
            { id := "WARRANTY_TYPE", value_name := "Manufacturer" }].reverse.find?
              (fun w => w.id == "WARRANTY_TIME")).map (fun w => w.value_name) :=
  get_warranties_last_match _ _ rfl rfl

/-! ## Claim C6: missing required fields abort the item flattener -/

/-- The body lacks one of the six top-level required fields named by
the claim. -/
def missingRequired (b : ItemBody) : Prop :=
  b.category_id = none ∨ b.price = none ∨ b.seller_id = none
  ∨ b.title = none ∨ b.currency_id = none ∨ b.shipping = none

/-- All four keys of the nested `shipping` dict are present. -/
def shippingComplete (sh : ShippingInfo) : Prop :=
  sh.free_shipping.isSome ∧ sh.local_pick_up.isSome
  ∧ sh.logistic_type.isSome ∧ sh.mode.isSome

/-- Every key the flattener looks up is present in the body. -/
def bodyComplete (b : ItemBody) : Prop :=
  b.category_id.isSome ∧ b.price.isSome ∧ b.seller_id.isSome
  ∧ b.title.isSome ∧ b.currency_id.isSome
  ∧ (∃ sh, b.shipping = some sh ∧ shippingComplete sh)
  ∧ b.sale_terms.isSome

theorem flattenItem_ok_iff (w : WireItem) :
    (∃ r, flattenItem w = Except.ok r) ↔ bodyComplete w.body := by
  constructor
  · rintro ⟨r, hr⟩
    unfold flattenItem at hr
    repeat' split at hr
    all_goals simp_all [bodyComplete, shippingComplete]
  · rintro ⟨h1, h2, h3, h4, h5, ⟨sh, hsh, f1, f2, f3, f4⟩, h7⟩
    rcases Option.isSome_iff_exists.mp h1 with ⟨v1, e1⟩
    rcases Option.isSome_iff_exists.mp h2 with ⟨v2, e2⟩
    rcases Option.isSome_iff_exists.mp h3 with ⟨v3, e3⟩
    rcases Option.isSome_iff_exists.mp h4 with ⟨v4, e4⟩
    rcases Option.isSome_iff_exists.mp h5 with ⟨v5, e5⟩
    rcases Option.isSome_iff_exists.mp f1 with ⟨u1, g1⟩
    rcases Option.isSome_iff_exists.mp f2 with ⟨u2, g2⟩
    rcases Option.isSome_iff_exists.mp f3 with ⟨u3, g3⟩
    rcases Option.isSome_iff_exists.mp f4 with ⟨u4, g4⟩
    rcases Option.isSome_iff_exists.mp h7 with ⟨v7, e7⟩
    have hok : flattenItem w = Except.ok (get_warranties_date
        { category_id := v1, price := v2, seller_id := v3, title := v4,
          currency_id := v5, free_shipping := u1, local_pick_up := u2,
          logistic_type := u3, shipping_mode := u4,
          warranty_time := none, warranty_type := none } v7) := by
      simp [flattenItem, e1, e2, e3, e4, e5, hsh, g1, g2, g3, g4, e7]
    exact ⟨_, hok⟩

theorem flattenItem_error_of_missing (w : WireItem)
    (h : missingRequired w.body) : ∃ e, flattenItem w = Except.error e := by
  cases hres : flattenItem w with
  | error e => exact ⟨e, rfl⟩
  | ok r =>
    exfalso
    have hc := (flattenItem_ok_iff w).mp ⟨r, hres⟩
    rcases hc with ⟨c1, c2, c3, c4, c5, ⟨sh, hsh, _⟩, c7⟩
    rcases h with h|h|h|h|h|h <;> simp_all

theorem get_items_data_error_of_mem (l : List WireItem)
    (h : ∃ w ∈ l, missingRequired w.body) :
    ∃ e, get_items_data l = Except.error e := by
  induction l with
  | nil => simp at h
  | cons a l ih =>
    rcases h with ⟨w, hw, hmiss⟩
    rcases List.mem_cons.mp hw with rfl | hmem
    · rcases flattenItem_error_of_missing w hmiss with ⟨e, he⟩
      exact ⟨e, by rw [get_items_data, he]⟩
    · cases ha : flattenItem a with
      | error e => exact ⟨e, by rw [get_items_data, ha]⟩
      | ok r =>
        rcases ih ⟨w, hmem, hmiss⟩ with ⟨e, he⟩
        exact ⟨e, by rw [get_items_data, ha, he]⟩

theorem get_items_data_ok_of_complete (l : List WireItem)
    (h : ∀ w ∈ l, bodyComplete w.body) :
    ∃ rs, get_items_data l = Except.ok rs := by
  induction l with
  | nil => exact ⟨[], rfl⟩
  | cons a l ih =>
    rcases (flattenItem_ok_iff a).mpr (h a (by simp)) with ⟨r, hr⟩
    rcases ih (fun w hw => h w (List.mem_cons_of_mem a hw)) with ⟨rs, hrs⟩
    exact ⟨r :: rs, by rw [get_items_data, hr, hrs]⟩

/-- Claim C6: if any element's body lacks one of `category_id, price,
seller_id, title, currency_id, shipping`, the item flattener fails with
a missing-field (`KeyError`) error and produces no record list; when
every looked-up key is present the flattener succeeds, regardless of
whether any warranty-related `sale_terms` entries exist. -/
theorem get_items_data_missing_field (l : List WireItem) :
    ((∃ w ∈ l, missingRequired w.body) → ∃ e, get_items_data l = Except.error e)
    ∧ ((∀ w ∈ l, bodyComplete w.body) → ∃ rs, get_items_data l = Except.ok rs) :=
  ⟨get_items_data_error_of_mem l, get_items_data_ok_of_complete l⟩

theorem get_items_data_missing_field_witness :
    (∃ e, get_items_data
        [⟨⟨none, some 1, some 2, some "t", some "u",
            some ⟨some true, some false, some "l", some "m"⟩, some []⟩⟩]
      = Except.error e)
    ∧ (∃ rs, get_items_data
        [⟨⟨some "c", some 1, some 2, some "t", some "u",
            some ⟨some true, some false, some "l", some "m"⟩, some []⟩⟩]
      = Except.ok rs) := by
  constructor
  · exact (get_items_data_missing_field _).1
      ⟨_, List.mem_singleton_self _, Or.inl rfl⟩
  · refine (get_items_data_missing_field _).2 ?_
    intro w hw
    rw [List.mem_singleton.mp hw]
    exact ⟨rfl, rfl, rfl, rfl, rfl, ⟨_, rfl, rfl, rfl, rfl, rfl⟩, rfl⟩

/-! ## Claim C5: the flatteners are deterministic -/

/-- Claim C5: flattening the same wire list twice yields equal record
lists, for both the item flattener and the seller flattener — they are
pure functions of their input. -/
theorem flatteners_deterministic (items1 items2 : List WireItem)
    (sellers1 sellers2 : List WireSeller)
    (hi : items1 = items2) (hs : sellers1 = sellers2) :
    get_items_data items1 = get_items_data items2
    ∧ get_sellers_data sellers1 = get_sellers_data sellers2 :=
  ⟨congrArg get_items_data hi, congrArg get_sellers_data hs⟩

theorem flatteners_deterministic_witness :
    get_items_data [] = get_items_data []
    ∧ get_sellers_data [] = get_sellers_data [] :=
  flatteners_deterministic [] [] [] [] rfl rfl

/-! ## HTTP layer and the bulk fetchers (`Item.fetch_items`,
`Item.fetch_seller`)

`requests.get` is modelled by a response oracle mapping the
comma-joined id string of the request URL to a response.  `fetch_items`
walks the 20-element chunks in order; a non-200 response makes it
`return None` at once, and a `KeyError` inside the flattener would
propagate as an exception (`Except.error`). -/

structure HttpResp (α : Type) where
  status : Nat
  body : α
deriving Repr

/-- The chunk loop of `Item.fetch_items`, with `acc` playing
`all_items_data`. -/
def fetch_items_go (respond : String → HttpResp (List WireItem)) :
    List (List String) → List ItemRecord
    → Except String (Option (List ItemRecord))
  | [], acc => .ok (some acc)
  | c :: cs, acc =>
    let response := respond (pyJoinComma c)
    if response.status ≠ 200 then .ok none
    else
      match get_items_data response.body with
      | .error e => .error e
      | .ok items => fetch_items_go respond cs (acc ++ items)

/-- `Item.fetch_items`: batch the ids and fetch chunk by chunk. -/
def fetch_items (respond : String → HttpResp (List WireItem))
    (ids_str : String) : Except String (Option (List ItemRecord)) :=
  fetch_items_go respond (chunk_ids ids_str 20) []

/-- The chunk loop of `Item.fetch_seller`, with `acc` playing
`all_sellers_data`. -/
def fetch_seller_go (respond : String → HttpResp (List WireSeller)) :
    List (List String) → List SellerRecord
    → Except String (Option (List SellerRecord))
  | [], acc => .ok (some acc)
  | c :: cs, acc =>
    let response := respond (pyJoinComma c)
    if response.status ≠ 200 then .ok none
    else
      match get_sellers_data response.body with
      | .error e => .error e
      | .ok sellers => fetch_seller_go respond cs (acc ++ sellers)

/-- `Item.fetch_seller`: batch the seller ids and fetch chunk by chunk. -/
def fetch_seller (respond : String → HttpResp (List WireSeller))
    (ids_str : String) : Except String (Option (List SellerRecord)) :=
  fetch_seller_go respond (chunk_ids ids_str 20) []

theorem fetch_items_go_none (respond : String → HttpResp (List WireItem))
    (cs : List (List String)) :
    ∀ acc,
    (∀ c ∈ cs, ∃ v, get_items_data (respond (pyJoinComma c)).body
      = Except.ok v) →
    (∃ c ∈ cs, (respond (pyJoinComma c)).status ≠ 200) →
    fetch_items_go respond cs acc = .ok none := by
  induction cs with
  | nil =>
    rintro acc _ ⟨c, hc, _⟩
    simp at hc
  | cons c cs ih =>
    intro acc hok hbad
    by_cases hst : (respond (pyJoinComma c)).status ≠ 200
    · simp only [fetch_items_go]
      rw [if_pos hst]
    · rcases hok c (by simp) with ⟨v, hv⟩
      have hstep : fetch_items_go respond (c :: cs) acc
          = fetch_items_go respond cs (acc ++ v) := by
        simp only [fetch_items_go]
        rw [if_neg hst, hv]
      rw [hstep]
      refine ih _ (fun x hx => hok x (List.mem_cons_of_mem c hx)) ?_
      rcases hbad with ⟨x, hx, hxbad⟩
      rcases List.mem_cons.mp hx with rfl | hxmem
      · exact absurd hxbad hst
      · exact ⟨x, hxmem, hxbad⟩

theorem fetch_seller_go_none (respond : String → HttpResp (List WireSeller))
    (cs : List (List String)) :
    ∀ acc,
    (∀ c ∈ cs, ∃ v, get_sellers_data (respond (pyJoinComma c)).body
      = Except.ok v) →
    (∃ c ∈ cs, (respond (pyJoinComma c)).status ≠ 200) →
    fetch_seller_go respond cs acc = .ok none := by
  induction cs with
  | nil =>
    rintro acc _ ⟨c, hc, _⟩
    simp at hc
  | cons c cs ih =>
    intro acc hok hbad
    by_cases hst : (respond (pyJoinComma c)).status ≠ 200
    · simp only [fetch_seller_go]
      rw [if_pos hst]
    · rcases hok c (by simp) with ⟨v, hv⟩
      have hstep : fetch_seller_go respond (c :: cs) acc
          = fetch_seller_go respond cs (acc ++ v) := by
        simp only [fetch_seller_go]
        rw [if_neg hst, hv]
      rw [hstep]
      refine ih _ (fun x hx => hok x (List.mem_cons_of_mem c hx)) ?_
      rcases hbad with ⟨x, hx, hxbad⟩
      rcases List.mem_cons.mp hx with rfl | hxmem
      · exact absurd hxbad hst
      · exact ⟨x, hxmem, hxbad⟩

/-- Claim C3: if any batch request of the bulk item fetch or the bulk
seller fetch answers non-200, the whole bulk fetch returns absence
(`None`), not a partial list of records from earlier batches.  The
first hypotheses say every batch payload is flattenable (otherwise
Python would raise a `KeyError` instead of returning at all). -/
theorem bulk_fetch_fail_fast
    (ri : String → HttpResp (List WireItem))
    (rs : String → HttpResp (List WireSeller))
    (si ss : String)
    (hi : ∀ c ∈ chunk_ids si 20,
      ∃ v, get_items_data (ri (pyJoinComma c)).body = Except.ok v)
    (hs : ∀ c ∈ chunk_ids ss 20,
      ∃ v, get_sellers_data (rs (pyJoinComma c)).body = Except.ok v)
    (hbi : ∃ c ∈ chunk_ids si 20, (ri (pyJoinComma c)).status ≠ 200)
    (hbs : ∃ c ∈ chunk_ids ss 20, (rs (pyJoinComma c)).status ≠ 200) :
    fetch_items ri si = .ok none ∧ fetch_seller rs ss = .ok none :=
  ⟨fetch_items_go_none ri _ [] hi hbi, fetch_seller_go_none rs _ [] hs hbs⟩

theorem bulk_fetch_fail_fast_witness :
    fetch_items (fun _ => ⟨404, []⟩) "a" = Except.ok none
    ∧ fetch_seller (fun _ => ⟨404, []⟩) "a" = Except.ok none := by
  have hch : chunk_ids "a" 20 = [["a"]] := by
    show chunkList 20 (pySplit "a") = [["a"]]
    rw [show pySplit "a" = ["a"] from rfl, chunkList_cons]
    simp [chunkList_nil]
  exact bulk_fetch_fail_fast (fun _ => ⟨404, []⟩) (fun _ => ⟨404, []⟩) "a" "a"
    (fun c _ => ⟨[], rfl⟩) (fun c _ => ⟨[], rfl⟩)
    ⟨["a"], by rw [hch]; exact List.mem_singleton_self _, by decide⟩
    ⟨["a"], by rw [hch]; exact List.mem_singleton_self _, by decide⟩

/-! ## Claim C7: `Item.fetch_currency_conversion` on non-200 -/

/-- The parsed JSON body of the currency-conversion response; the
extraction uses `dict.get`, which never raises, hence `Option` fields.
The rate is only carried through, never computed with. -/
structure CurrencyBody where
  currency_base : Option String
  currency_quote : Option String
  rate : Option Rat
deriving DecidableEq, Repr

/-- The `extracted_data` dict built on success. -/
structure CurrencyExtract where
  currency_base : Option String
  currency_quote : Option String
  rate : Option Rat
deriving DecidableEq, Repr

/-- `Item.fetch_currency_conversion`: on non-200, log the status via
`logging.error` (second component collects log lines) and return
`None`; on 200, extract the three fields with `.get`. -/
def fetch_currency_conversion (response : HttpResp CurrencyBody) :
    Option CurrencyExtract × List String :=
  if response.status ≠ 200 then
    (none, ["Error fetching data: " ++ toString response.status])
  else
    (some { currency_base := response.body.currency_base,
            currency_quote := response.body.currency_quote,
            rate := response.body.rate }, [])

/-- Claim C7: for every non-200 response, `fetch_currency_conversion`
logs the status and returns absence (`None`) — it raises nothing, it
evaluates to a value on every such response. -/
theorem fetch_currency_conversion_non200 (response : HttpResp CurrencyBody)
    (h : response.status ≠ 200) :
    fetch_currency_conversion response
      = (none, ["Error fetching data: " ++ toString response.status]) := by
  rw [fetch_currency_conversion, if_pos h]

theorem fetch_currency_conversion_non200_witness :
    (500 : Nat) ≠ 200
    ∧ fetch_currency_conversion ⟨500, ⟨none, none, none⟩⟩
      = (none, ["Error fetching data: " ++ toString (500 : Nat)]) :=
  ⟨by decide, fetch_currency_conversion_non200 ⟨500, ⟨none, none, none⟩⟩
    (by decide)⟩

/-! ## Claim C8: `DataBase.create_table_if_not_exists` idempotence

The warehouse is modelled by the list of existing table names.
`client.get_table` raises (here: `Except.error`) when the table is not
found, and `client.create_table` raises when it already exists. -/

/-- `client.get_table`: descriptor lookup, error when absent. -/
def get_table (tables : List String) (table_name : String) :
    Except String Unit :=
  if table_name ∈ tables then .ok () else .error "NotFound"

/-- `client.create_table`: create, error when it already exists. -/
def create_table (tables : List String) (table_name : String) :
    Except String (List String) :=
  if table_name ∈ tables then .error "AlreadyExists"
  else .ok (table_name :: tables)

/-- `DataBase.create_table_if_not_exists`: try the lookup, and on any
exception create the table.  The Bool records whether a create was
attempted. -/
def create_table_if_not_exists (tables : List String) (table_name : String) :
    Except String (List String × Bool) :=
  match get_table tables table_name with
  | .ok _ => .ok (tables, false)
  | .error _ =>
    match create_table tables table_name with
    | .ok tables2 => .ok (tables2, true)
    | .error e => .error e

/-- Claim C8: `create_table_if_not_exists` is idempotent: the first
call creates the table at most once (and only when it was absent), the
second call on the resulting state errors nothing and attempts no
create, and when the existence check reports the table present no
create is attempted. -/
theorem create_table_if_not_exists_idempotent
    (tables : List String) (table_name : String) :
    ∃ tables1 b1,
      create_table_if_not_exists tables table_name
        = Except.ok (tables1, b1)
      ∧ create_table_if_not_exists tables1 table_name
        = Except.ok (tables1, false)
      ∧ (table_name ∈ tables → b1 = false)
      ∧ (b1 = true → ¬ table_name ∈ tables) := by
  by_cases h : table_name ∈ tables
  · refine ⟨tables, false, ?_, ?_, fun _ => rfl, by simp⟩
    all_goals
      rw [create_table_if_not_exists, get_table, if_pos h]
  · refine ⟨table_name :: tables, true, ?_, ?_, fun hm => absurd hm h,
      fun _ => h⟩
    · rw [create_table_if_not_exists, get_table, if_neg h, create_table,
        if_neg h]
    · rw [create_table_if_not_exists, get_table,
        if_pos (List.mem_cons_self table_name tables)]

theorem create_table_if_not_exists_idempotent_witness :
    ∃ tables1 b1,
      create_table_if_not_exists [] "ds.items" = Except.ok (tables1, b1)
      ∧ create_table_if_not_exists tables1 "ds.items"
        = Except.ok (tables1, false)
      ∧ ("ds.items" ∈ ([] : List String) → b1 = false)
      ∧ (b1 = true → ¬ "ds.items" ∈ ([] : List String)) :=
  create_table_if_not_exists_idempotent [] "ds.items"

/-! ## Claim C9: `DataBase._create_bigquery_client` retries

`bigquery.Client()` is modelled by an oracle giving each attempt's
outcome.  The source loop `for attempt in range(max_retries + 1)` with
`max_retries = 3` is unrolled; the `Nat` component counts the attempts
actually made. -/

/-- `DataBase._create_bigquery_client` for a generic client type. -/
def create_bigquery_client (Client : Type)
    (tryConnect : Nat → Option Client) : Except String (Client × Nat) :=
  match tryConnect 0 with
  | some c => .ok (c, 1)
  | none =>
  match tryConnect 1 with
  | some c => .ok (c, 2)
  | none =>
  match tryConnect 2 with
  | some c => .ok (c, 3)
  | none =>
  match tryConnect 3 with
  | some c => .ok (c, 4)
  | none => .error "Could not connect to BigQuery after several attempts."

/-- Claim C9: the client constructor makes up to 4 attempts in total;
if all 4 fail it raises the fatal connection error, and if attempt `a`
(the first to succeed) yields a client it returns that client having
made exactly `a + 1 ≤ 4` attempts — no further ones. -/
theorem create_bigquery_client_retries (Client : Type)
    (tryConnect : Nat → Option Client) :
    ((∀ a < 4, tryConnect a = none) →
      create_bigquery_client Client tryConnect
        = Except.error "Could not connect to BigQuery after several attempts.")
    ∧ (∀ a c, a < 4 → tryConnect a = some c → (∀ j < a, tryConnect j = none) →
        create_bigquery_client Client tryConnect = Except.ok (c, a + 1)
        ∧ a + 1 ≤ 4) := by
  constructor
  · intro h
    rw [create_bigquery_client, h 0 (by omega), h 1 (by omega),
      h 2 (by omega), h 3 (by omega)]
  · intro a c ha hc hprev
    refine ⟨?_, by omega⟩
    interval_cases a
    · rw [create_bigquery_client, hc]
    · rw [create_bigquery_client, hprev 0 (by omega), hc]
    · rw [create_bigquery_client, hprev 0 (by omega), hprev 1 (by omega), hc]
    · rw [create_bigquery_client, hprev 0 (by omega), hprev 1 (by omega),
        hprev 2 (by omega), hc]

theorem create_bigquery_client_retries_witness :
    create_bigquery_client Nat (fun _ => none)
      = Except.error "Could not connect to BigQuery after several attempts."
    ∧ (create_bigquery_client Nat (fun n => if n = 2 then some 7 else none)
        = Except.ok (7, 3) ∧ 2 + 1 ≤ 4) := by
  constructor
  · exact (create_bigquery_client_retries Nat (fun _ => none)).1
      (fun a _ => rfl)
  · exact (create_bigquery_client_retries Nat
        (fun n => if n = 2 then some 7 else none)).2 2 7 (by omega) (by simp)
      (by intro j hj
          interval_cases j <;> simp)

/-! ## Claim C10: one seller id per product result, duplicates kept

`Item.get_sellers_ids` does
`",".join([str(product["seller"]["id"]) for product in results])`.
Decimal integer representations contain no comma, so splitting the
joined string recovers exactly one id per product, in order. -/

theorem digitChar_ne_comma (n : Nat) : Nat.digitChar n ≠ ',' := by
  rcases Nat.lt_or_ge n 16 with hlt | hge
  · interval_cases n <;> decide
  · have h16 : Nat.digitChar n = '*' := by
      unfold Nat.digitChar
      repeat rw [if_neg (by omega)]
    rw [h16]
    decide

theorem mem_toDigitsCore (b : Nat) (fuel : Nat) :
    ∀ (n : Nat) (ds : List Char) (c : Char),
      c ∈ Nat.toDigitsCore b fuel n ds
      → c ∈ ds ∨ ∃ m, c = Nat.digitChar m := by
  induction fuel with
  | zero =>
    intro n ds c hc
    simp only [Nat.toDigitsCore] at hc
    exact Or.inl hc
  | succ fuel ih =>
    intro n ds c hc
    simp only [Nat.toDigitsCore] at hc
    split at hc
    · rcases List.mem_cons.mp hc with rfl | h
      · exact Or.inr ⟨n % b, rfl⟩
      · exact Or.inl h
    · rcases ih (n / b) (Nat.digitChar (n % b) :: ds) c hc with h | h
      · rcases List.mem_cons.mp h with rfl | h2
        · exact Or.inr ⟨n % b, rfl⟩
        · exact Or.inl h2
      · exact Or.inr h

theorem comma_not_mem_natRepr (n : Nat) : ¬ ',' ∈ (Nat.repr n).data := by
  intro h
  have h2 : ',' ∈ Nat.toDigitsCore 10 (n + 1) n [] := h
  rcases mem_toDigitsCore 10 (n + 1) n [] ',' h2 with h3 | ⟨m, hm⟩
  · simp at h3
  · exact digitChar_ne_comma m hm.symm

theorem comma_not_mem_toString_int (i : Int) :
    ¬ ',' ∈ (toString i).data := by
  cases i with
  | ofNat m => exact comma_not_mem_natRepr m
  | negSucc m =>
    intro h
    have hd : (toString (Int.negSucc m)).data
        = '-' :: (Nat.repr (m + 1)).data := rfl
    rw [hd] at h
    rcases List.mem_cons.mp h with h1 | h1
    · exact absurd h1 (by decide)
    · exact comma_not_mem_natRepr (m + 1) h1

/-- The `seller` dict of one `/sites/…/search` product result. -/
structure SellerRef where
  id : Int
deriving DecidableEq, Repr

/-- One element of `items_data["results"]`. -/
structure ProductResult where
  id : String
  seller : SellerRef
deriving DecidableEq, Repr

/-- The comprehension inside `Item.get_sellers_ids`:
`[str(product["seller"]["id"]) for product in results]`. -/
def get_sellers_ids_list (results : List ProductResult) : List String :=
  results.map (fun p => toString p.seller.id)

/-- `Item.get_sellers_ids`: the comma-join of the comprehension. -/
def get_sellers_ids (results : List ProductResult) : String :=
  pyJoinComma (get_sellers_ids_list results)

/-- The comprehension inside `Item.get_items_ids`:
`[product["id"] for product in results]`. -/
def get_items_ids_list (results : List ProductResult) : List String :=
  results.map (fun p => p.id)

/-- `Item.get_items_ids`: the comma-join of the comprehension. -/
def get_items_ids (results : List ProductResult) : String :=
  pyJoinComma (get_items_ids_list results)

theorem get_sellers_data_length (wire : List WireSeller) :
    ∀ recs, get_sellers_data wire = Except.ok recs
      → recs.length = wire.length := by
  induction wire with
  | nil =>
    intro recs h
    cases h
    rfl
  | cons w ws ih =>
    intro recs h
    rw [get_sellers_data] at h
    cases hw : flattenSeller w with
    | error e => rw [hw] at h; cases h
    | ok r =>
      rw [hw] at h
      cases hws : get_sellers_data ws with
      | error e => rw [hws] at h; cases h
      | ok rs =>
        rw [hws] at h
        cases h
        simp [ih rs hws]

theorem fetch_seller_go_ok (respond : String → HttpResp (List WireSeller))
    (cs : List (List String)) :
    ∀ acc,
    (∀ c ∈ cs, (respond (pyJoinComma c)).status = 200
      ∧ ∃ recs, get_sellers_data (respond (pyJoinComma c)).body
          = Except.ok recs ∧ recs.length = c.length) →
    ∃ rows, fetch_seller_go respond cs acc = .ok (some rows)
      ∧ rows.length = acc.length + (cs.map List.length).sum := by
  induction cs with
  | nil => exact fun acc _ => ⟨acc, rfl, by simp⟩
  | cons c cs ih =>
    intro acc hgood
    rcases hgood c (by simp) with ⟨hst, recs, hrecs, hlen⟩
    have hstep : fetch_seller_go respond (c :: cs) acc
        = fetch_seller_go respond cs (acc ++ recs) := by
      simp only [fetch_seller_go]
      rw [if_neg (by rw [hst]; exact fun hne => hne rfl), hrecs]
    rcases ih (acc ++ recs)
        (fun x hx => hgood x (List.mem_cons_of_mem c hx)) with
      ⟨rows, hrows, hrowslen⟩
    refine ⟨rows, by rw [hstep, hrows], ?_⟩
    rw [hrowslen]
    simp [hlen]
    omega

/-- Claim C10: seller ids are extracted one per product result, in
result order, with no deduplication — the extraction list is exactly
`str(product["seller"]["id"])` per result, splitting the joined id
string recovers it unchanged (duplicates included), and under batch
responses carrying one wire seller per requested id the bulk seller
fetch returns exactly one `SellerRecord` per product result. -/
theorem sellers_one_record_per_product
    (respond : String → HttpResp (List WireSeller))
    (results : List ProductResult)
    (hne : results ≠ [])
    (hgood : ∀ c ∈ chunk_ids (get_sellers_ids results) 20,
      (respond (pyJoinComma c)).status = 200
      ∧ ∃ recs, get_sellers_data (respond (pyJoinComma c)).body
          = Except.ok recs ∧ recs.length = c.length) :
    get_sellers_ids_list results
        = results.map (fun p => toString p.seller.id)
    ∧ pySplit (get_sellers_ids results) = get_sellers_ids_list results
    ∧ ∃ rows, fetch_seller respond (get_sellers_ids results)
        = Except.ok (some rows) ∧ rows.length = results.length := by
  have hsplit : pySplit (get_sellers_ids results)
      = get_sellers_ids_list results := by
    apply pySplit_pyJoinComma
    · simpa [get_sellers_ids_list] using hne
    · intro p hp
      rcases List.mem_map.mp hp with ⟨q, hq, rfl⟩
      exact comma_not_mem_toString_int q.seller.id
  refine ⟨rfl, hsplit, ?_⟩
  rcases fetch_seller_go_ok respond
      (chunk_ids (get_sellers_ids results) 20) [] hgood with
    ⟨rows, hrows, hlen⟩
  refine ⟨rows, hrows, ?_⟩
  rw [hlen]
  have hsum : ((chunk_ids (get_sellers_ids results) 20).map List.length).sum
      = (pySplit (get_sellers_ids results)).length := by
    rw [← List.length_flatten]
    rw [show chunk_ids (get_sellers_ids results) 20
        = chunkList 20 (pySplit (get_sellers_ids results)) from rfl,
      join_chunkList]
  rw [hsum, hsplit]
  simp [get_sellers_ids_list]

theorem sellers_one_record_per_product_witness :
    get_sellers_ids_list
        [(⟨"MLA1", ⟨7⟩⟩ : ProductResult), ⟨"MLA2", ⟨7⟩⟩]
      = [(⟨"MLA1", ⟨7⟩⟩ : ProductResult), ⟨"MLA2", ⟨7⟩⟩].map
          (fun p => toString p.seller.id)
    ∧ pySplit (get_sellers_ids
        [(⟨"MLA1", ⟨7⟩⟩ : ProductResult), ⟨"MLA2", ⟨7⟩⟩])
      = get_sellers_ids_list
          [(⟨"MLA1", ⟨7⟩⟩ : ProductResult), ⟨"MLA2", ⟨7⟩⟩]
    ∧ ∃ rows, fetch_seller
        (fun _ => ⟨200, [⟨⟨some 7, some ⟨some ⟨some 5⟩⟩⟩⟩,
                         ⟨⟨some 7, some ⟨some ⟨some 5⟩⟩⟩⟩]⟩)
        (get_sellers_ids [(⟨"MLA1", ⟨7⟩⟩ : ProductResult), ⟨"MLA2", ⟨7⟩⟩])
      = Except.ok (some rows)
      ∧ rows.length
        = [(⟨"MLA1", ⟨7⟩⟩ : ProductResult), ⟨"MLA2", ⟨7⟩⟩].length := by
  have hids : get_sellers_ids
      [(⟨"MLA1", ⟨7⟩⟩ : ProductResult), ⟨"MLA2", ⟨7⟩⟩] = "7,7" := rfl
  have hch : chunk_ids "7,7" 20 = [["7", "7"]] := by
    show chunkList 20 (pySplit "7,7") = [["7", "7"]]
    rw [show pySplit "7,7" = ["7", "7"] from rfl, chunkList_cons]
    simp [chunkList_nil]
  apply sellers_one_record_per_product
  · simp
  · intro c hc
    rw [hids, hch] at hc
    rw [List.mem_singleton.mp hc]
    exact ⟨rfl, [⟨7, 5⟩, ⟨7, 5⟩], rfl, rfl⟩
